import Mathlib

/-!
Verification development for the SEALab BABIES analysis scripts.

The repository has two source files:

* `src/utils/io.py` — pure dataframe transformations:
  `get_gestational_age_df`, `get_brainvol_df` (wide-to-long melt with
  optional z-score standardization), `get_aparc_long_format`, and
  `get_aparc_all_hemisphere` (hemisphere merge).
* `src/scripts/get_freesurfer_stats.py` — the collector:
  `run_aseg2stats` and `get_aparcstats` glob per-subject stats files,
  extract a `sub-<id>` identifier from each path, tag and concatenate the
  parsed records, plus an argparse `__main__` dispatch block.

The definitions below are a shallow embedding of those functions.
Python strings are modelled through their character lists, pandas tables
through Lean lists, numeric cell values through real numbers, and IEEE
non-finite results (NaN from a zero divisor) through `Option ℝ` with
`none` standing for the non-finite value.  Fallible steps (a Python
`assert`, a pandas `KeyError` or `ValueError`) are modelled with
`Option`/`Except` results.
-/

namespace SEALab

open List (Perm)

/-! ### Python string primitives used by the scripts -/

/-- Python `s.startswith(p)`: `p` is a prefix of `s`
(`src/scripts/get_freesurfer_stats.py`, the
`part.startswith("sub-")` and `study_id.startswith("sub")` checks). -/
def pyStartsWith (s p : String) : Bool :=
  p.data.isPrefixOf s.data

/-- Python `s.split("_", maxsplit=1)[0]` (and equally
`s.split("_")[0]`, used by `get_brainvol_df` on the `study_id` column):
the characters of `s` strictly before the first underscore, all of `s`
when no underscore occurs. -/
def pySplitFirst (s : String) : String :=
  ⟨s.data.takeWhile (fun c => c ≠ '_')⟩

/-- Fuel-driven worker for `pyReplaceAll`: removes every non-overlapping
occurrence of `pat` from `s`, scanning left to right, consuming at least
one character of `s` per step so that `s.length` fuel always suffices. -/
def removeAllAux (pat : List Char) : Nat → List Char → List Char
  | 0, s => s
  | _ + 1, [] => []
  | n + 1, c :: cs =>
    if pat ≠ [] ∧ pat.isPrefixOf (c :: cs) then
      removeAllAux pat n ((c :: cs).drop pat.length)
    else
      c :: removeAllAux pat n cs

/-- Python / pandas `s.replace(pat, "")` (`Series.str.replace` with an
empty replacement, as in `get_aparc_all_hemisphere`): every
non-overlapping occurrence of `pat` anywhere in `s` is removed, not just
a leading occurrence. -/
def pyReplaceAll (s pat : String) : String :=
  ⟨removeAllAux pat.data s.data.length s.data⟩

/-! ### Identifier extraction and the collector
(`src/scripts/get_freesurfer_stats.py`, shared by `run_aseg2stats`
lines 57–65 and `get_aparcstats` lines 117–125).

A file path is modelled by its list of path segments
(Python `stat_path.parts`).  The Python code is

```
study_id = [part for part in stat_path.parts if part.startswith("sub-")]
assert len(study_id) == 1
study_id = study_id[0]
study_id = study_id.split("_", maxsplit=1)
assert study_id
study_id = study_id[0]
assert study_id.startswith("sub")
```

A failed `assert` aborts the run; it is modelled by `none`.  The middle
`assert study_id` can never fail (`str.split` never returns an empty
list) and needs no dedicated branch: `pySplitFirst` already is the
composite `split`/index step. -/

/-- Identifier extraction on the segments of one matched path. -/
def extractStudyId (parts : List String) : Option String :=
  match parts.filter (fun p => pyStartsWith p "sub-") with
  | [seg] =>
    let sid := pySplitFirst seg
    if pyStartsWith sid "sub" then some sid else none
  | _ => none

/-- The per-file loop of the collector: each matched file (its path
segments paired with its parsed content) is tagged with the extracted
identifier; the first assertion failure aborts the whole run. -/
def collectLoop {α : Type} : List (List String × α) → Except String (List (String × α))
  | [] => .ok []
  | f :: rest =>
    match extractStudyId f.1 with
    | none => .error "AssertionError"
    | some sid =>
      match collectLoop rest with
      | .error e => .error e
      | .ok t => .ok ((sid, f.2) :: t)

/-- The collector after globbing: loop over the matched files, then
concatenate the tagged records.  `pd.concat` raises a `ValueError` when
it is given no objects, which happens exactly when the glob matched no
files. -/
def collectStats {α : Type} (files : List (List String × α)) :
    Except String (List (String × α)) :=
  match collectLoop files with
  | .error e => .error e
  | .ok [] => .error "ValueError: No objects to concatenate"
  | .ok t => .ok t

/-! ### The command line dispatch
(`src/scripts/get_freesurfer_stats.py`, `__main__` block, lines 166–170).

The module level of the script defines exactly two collector functions.
The `__main__` block dispatches `--metric aseg` to `run_aseg2stats` and
`--metric aparc` to the name `run_aparcstats2table`.  Evaluating a
global name that the module never defines raises a `NameError` before
the call (and hence before any collection) is performed. -/

/-- The function names the script module defines at top level. -/
def definedFunctions : List String :=
  ["run_aseg2stats", "get_aparcstats"]

/-- The global name the `__main__` block invokes for each accepted
`--metric` value. -/
def dispatchTarget (metric : String) : Option String :=
  if metric = "aseg" then some "run_aseg2stats"
  else if metric = "aparc" then some "run_aparcstats2table"
  else none

/-- Outcome of running the entry point with the given arguments: either
the name of the collector that gets called (with its arguments), or the
uncaught error raised first.  `session` and `hemisphere` are carried
along untouched, as the dispatch never inspects them. -/
def mainDispatch (session hemisphere metric : String) :
    Except String (String × String × String) :=
  match dispatchTarget metric with
  | none => .error "argparse: invalid choice"
  | some f =>
    if f ∈ definedFunctions then .ok (f, session, hemisphere)
    else .error ("NameError: name " ++ f ++ " is not defined")

/-! ### The reshaper (`src/utils/io.py`, `get_brainvol_df`, lines 35–76)

A wide table is modelled by its list of rows, each row the subject
identifier cell paired with the cells of the non-key value columns,
aligned with a fixed list of column names.  `pd.melt` with
`id_vars=["study_id"]` ravels the value columns in column-major order
(pandas `ravel("F")`): the whole first value column (paired row by row
with the identifier column), then the whole second value column, and so
on.  The `value_vars` list in the source repeats `study_id`, but pandas
pops every `id_vars` column from the frame before raveling, so the
effective value columns are exactly `brain_cols`.  `melt` below peels
the value columns off left to right, which is that column-major
traversal. -/

/-- Pandas `melt` with one id column: emit, for each value column in
order, the (identifier, column name, cell) triples of the whole column.
On rectangular tables (every row as long as the column-name list) this
is exactly the pandas output; `head?`/`tail` handle ragged rows
harmlessly, a shape pandas never produces. -/
def melt {α : Type} : List String → List (String × List α) → List (String × String × α)
  | [], _ => []
  | n :: ns, rows =>
    rows.filterMap (fun r => r.2.head?.map (fun v => (r.1, n, v)))
      ++ melt ns (rows.map (fun r => (r.1, r.2.tail)))

/-- Row-major enumeration of the cells of a wide table: for each row,
the (identifier, column name, cell) triples of that row. -/
def wideCells {α : Type} (valueCols : List String) (rows : List (String × List α)) :
    List (String × String × α) :=
  rows.flatMap (fun r => (valueCols.zip r.2).map (fun nv => (r.1, nv.1, nv.2)))

/-- The value-column names selected by `get_brainvol_df`
(`brain_cols` in the source). -/
def brain_cols : List String :=
  ["BrainSegVolNotVent", "SubCortGrayVol", "CortexVol", "TotalGrayVol",
   "CerebralWhiteMatterVol"]

/-- Column `j` of a row-major table, as pandas sees it: the cell at
position `j` of every row that has one. -/
def columnOf {α : Type} (rows : List (List α)) (j : Nat) : List α :=
  rows.filterMap (fun r => r.get? j)

/-- `numpy.ndarray.mean`: the sum divided by the number of entries. -/
noncomputable def mean (xs : List ℝ) : ℝ :=
  xs.sum / xs.length

/-- `numpy.ndarray.var` with `ddof=0` (the scipy default): the mean of
the squared deviations, population style. -/
noncomputable def pvar (xs : List ℝ) : ℝ :=
  ((xs.map (fun x => (x - mean xs) ^ 2)).sum) / xs.length

/-- `numpy.ndarray.std` with `ddof=0`: the square root of `pvar`. -/
noncomputable def pstd (xs : List ℝ) : ℝ :=
  Real.sqrt (pvar xs)

/-- IEEE division as the pipeline meets it: a zero divisor produces a
non-finite value (modelled by `none`).  In this pipeline the divisor is
a standard deviation, and whenever it is zero every dividend is exactly
zero as well, so the non-finite value is specifically NaN (`0.0/0.0`). -/
noncomputable def fdiv (a b : ℝ) : Option ℝ :=
  if b = 0 then none else some (a / b)

/-- `scipy.stats.zscore` on one column (default `ddof=0`,
`nan_policy="propagate"`): every entry `x` becomes `(x - mean) / std`
with mean and standard deviation taken over the whole column. -/
noncomputable def zscoreList (xs : List ℝ) : List (Option ℝ) :=
  xs.map (fun x => fdiv (x - mean xs) (pstd xs))

/-- The standardization step
`df[brain_cols] = df[brain_cols].apply(stats.zscore)`: the cell at row
`i`, column `j` becomes entry `i` of `zscoreList` applied to column `j`.
Because `zscoreList` is an entrywise map, on the rectangular frames
pandas produces that entry is `(x i j - mean (column j)) / pstd (column j)`,
which is how the cell is written here; the row structure is preserved. -/
noncomputable def zscoreRows (rows : List (List ℝ)) : List (List (Option ℝ)) :=
  rows.map (fun r =>
    (List.range r.length).map (fun j =>
      (r.get? j).bind (fun x =>
        fdiv (x - mean (columnOf rows j)) (pstd (columnOf rows j)))))

/-- `get_brainvol_df` (`src/utils/io.py` lines 35–76) after the file has
been parsed: the input is the parsed table with the `Measure:volume`
column already relabelled `study_id` (a pure rename in the source), one
entry per file row carrying the raw identifier cell and the value cells
aligned with `brain_cols`.  The identifier is truncated at its first
underscore, the value columns are optionally standardized, and the
table is melted into long format.  The trailing `set_index("study_id")`
keeps the same triples. -/
noncomputable def get_brainvol_df (rows : List (String × List ℝ)) (zscore : Bool) :
    List (String × String × Option ℝ) :=
  let ids := rows.map (fun r => pySplitFirst r.1)
  let vals := rows.map (fun r => r.2)
  melt brain_cols
    (if zscore then ids.zip (zscoreRows vals)
     else rows.map (fun r => (pySplitFirst r.1, r.2.map some)))

/-! ### The hemisphere merge
(`src/utils/io.py`, `get_aparc_all_hemisphere`, lines 143–150)

The inputs are the two long-format tables produced by
`get_aparc_long_format`: one record per (subject, structure, metric)
with a value cell. -/

/-- One record of a long-format aparc table. -/
structure AparcRow (α : Type) where
  study_id : String
  structName : String
  metric : String
  value : α
deriving DecidableEq, Repr

/-- One record of the merged table: the same fields plus the
`hemisphere` column added by the merge. -/
structure HemiRow (α : Type) where
  study_id : String
  structName : String
  metric : String
  value : α
  hemisphere : String
deriving DecidableEq, Repr

/-- One side of the merge: set the `hemisphere` column to `hemi` and
apply `Series.str.replace(hemi + "-", "")` to the structure names. -/
def tagHemisphere {α : Type} (hemi : String) (rows : List (AparcRow α)) :
    List (HemiRow α) :=
  rows.map (fun r =>
    { study_id := r.study_id
      structName := pyReplaceAll r.structName (hemi ++ "-")
      metric := r.metric
      value := r.value
      hemisphere := hemi })

/-- `get_aparc_all_hemisphere`: tag and strip each side with its own
hemisphere label, then `pd.concat` the left table before the right. -/
def get_aparc_all_hemisphere {α : Type} (lh rh : List (AparcRow α)) :
    List (HemiRow α) :=
  tagHemisphere "lh" lh ++ tagHemisphere "rh" rh

/-! ### The demographics loader
(`src/utils/io.py`, `get_gestational_age_df`, lines 9–32)

Pandas stores a frame column-wise; the parsed CSV is modelled as its
list of (column name, cell list) pairs in order.  Cells are either a
string or a number (the `study_id` column of the CSV holds numeric
identifiers, which Python `str` prints). -/

/-- A pandas cell as this loader meets it. -/
inductive Cell where
  | str : String → Cell
  | num : ℚ → Cell
deriving DecidableEq, Repr

/-- Python `str` on a cell. -/
def pyStr : Cell → String
  | .str s => s
  | .num q => toString q

/-- `df[name]`: the first column with the given name, `none` being the
`KeyError` case. -/
def getCol {α : Type} (t : List (String × List α)) (name : String) : Option (List α) :=
  (t.find? (fun c => c.1 == name)).map (fun c => c.2)

/-- `df[name] = xs`: replace the cells of the named column. -/
def setCol {α : Type} (t : List (String × List α)) (name : String) (xs : List α) :
    List (String × List α) :=
  t.map (fun c => if c.1 = name then (c.1, xs) else c)

/-- `df[[n1, ..., nk]]`: the named columns in the requested order;
`none` (a `KeyError`) when any is missing. -/
def selectCols {α : Type} : List String → List (String × List α) →
    Option (List (String × List α))
  | [], _ => some []
  | n :: ns, t =>
    match getCol t n, selectCols ns t with
    | some xs, some rest => some ((n, xs) :: rest)
    | _, _ => none

/-- `df.rename(columns=m)`: rename every column the mapping mentions,
leave the rest alone. -/
def renameCols {α : Type} (m : List (String × String)) (t : List (String × List α)) :
    List (String × List α) :=
  t.map (fun c => (((m.find? (fun p => p.1 == c.1)).map (fun p => p.2)).getD c.1, c.2))

/-- `get_gestational_age_df` on the parsed CSV: prefix every
`study_id` cell with `sub-`, select the identifier and the two
scan-age columns, and rename the latter to their canonical names.
The `assert fname_ages.exists()` and the read itself are the I/O
boundary outside this embedding. -/
def get_gestational_age_df (t : List (String × List Cell)) :
    Option (List (String × List Cell)) := do
  let sids ← getCol t "study_id"
  let t1 := setCol t "study_id" (sids.map (fun c => Cell.str ("sub-" ++ pyStr c)))
  let t2 ← selectCols ["study_id", "1mo_scan_age_wks", "6mo_scan_age_wks"] t1
  pure (renameCols
    [("1mo_scan_age_wks", "newborn_scan_age_weeks"),
     ("6mo_scan_age_wks", "sixmonth_scan_age_weeks")] t2)

/-! ## Theorems -/

/-- Claim C2: for every matched file path that contains exactly one path
segment beginning with `sub-`, the identifier-extraction step of the
collector returns exactly that segment truncated at its first
underscore. -/
theorem extractStudyId_unique_segment (parts : List String) (seg : String)
    (h : parts.filter (fun p => pyStartsWith p "sub-") = [seg]) :
    extractStudyId parts = some (pySplitFirst seg) := by
  have hmem : seg ∈ parts.filter (fun p => pyStartsWith p "sub-") :=
    h ▸ List.mem_singleton_self seg
  have hseg : pyStartsWith seg "sub-" = true := (List.mem_filter.mp hmem).2
  obtain ⟨t, ht⟩ : ∃ t, seg.data = 's' :: 'u' :: 'b' :: '-' :: t := by
    obtain ⟨t, ht⟩ := List.isPrefixOf_iff_prefix.mp hseg
    exact ⟨t, ht.symm⟩
  have hcond : pyStartsWith (pySplitFirst seg) "sub" = true := by
    unfold pyStartsWith pySplitFirst
    rw [ht]
    rfl
  simp only [extractStudyId, h, hcond, if_true]

/-- Witness for C2 at the sample path from the source comments. -/
theorem extractStudyId_unique_segment_witness :
    (["", "Volumes", "sub-1176_ses-newborn", "stats", "brainvol.stats"].filter
        (fun p => pyStartsWith p "sub-") = ["sub-1176_ses-newborn"])
    ∧ pySplitFirst "sub-1176_ses-newborn" = "sub-1176"
    ∧ extractStudyId ["", "Volumes", "sub-1176_ses-newborn", "stats", "brainvol.stats"]
        = some (pySplitFirst "sub-1176_ses-newborn") :=
  ⟨by decide, by decide,
    extractStudyId_unique_segment _ "sub-1176_ses-newborn" (by decide)⟩

/-- Claim C3: for every file path containing zero segments beginning
with `sub-`, or more than one, identifier extraction fails the
assertion (modelled `none`), and a collector run that meets such a path
aborts with the assertion error instead of producing a table. -/
theorem extractStudyId_fails_fast (parts : List String)
    (h : (parts.filter (fun p => pyStartsWith p "sub-")).length ≠ 1) :
    extractStudyId parts = none
    ∧ ∀ (α : Type) (content : α) (rest : List (List String × α)),
        collectStats ((parts, content) :: rest) = .error "AssertionError" := by
  have hnone : extractStudyId parts = none := by
    rcases hfilter : parts.filter (fun p => pyStartsWith p "sub-") with _ | ⟨a, _ | ⟨b, l⟩⟩
    · simp [extractStudyId, hfilter]
    · exact absurd (by rw [hfilter]; rfl) h
    · simp [extractStudyId, hfilter]
  refine ⟨hnone, fun α content rest => ?_⟩
  simp [collectStats, collectLoop, hnone]

/-- Witness for C3: a path with no `sub-` segment and a path with two. -/
theorem extractStudyId_fails_fast_witness :
    (extractStudyId ["", "Volumes", "stats"] = none)
    ∧ (extractStudyId ["sub-1_ses-a", "sub-2_ses-a"] = none)
    ∧ collectStats [((["", "Volumes", "stats"], (0 : ℤ)))]
        = .error "AssertionError" :=
  ⟨(extractStudyId_fails_fast _ (by decide)).1,
   (extractStudyId_fails_fast _ (by decide)).1,
   (extractStudyId_fails_fast _ (by decide)).2 ℤ 0 []⟩

/-- Claim C7 counterexample: with zero matched files the collector does
not produce a table at all; `pd.concat` of no objects raises, so the
claim that an (empty or undefined-behavior) table is produced with no
diagnostic fails at the concrete empty match set. -/
theorem collectStats_empty_counterexample :
    ¬ ∃ t : List (String × ℤ), collectStats ([] : List (List String × ℤ)) = .ok t := by
  rintro ⟨t, ht⟩
  simp [collectStats, collectLoop] at ht

/-- Claim C7 amended: when the recursive glob matches zero files, the
collector itself has no guard for the empty match set; the run aborts
with the uncaught `ValueError` that pandas raises when asked to
concatenate no objects, and no table is produced. -/
theorem collectStats_empty_raises (α : Type) :
    collectStats ([] : List (List String × α))
      = .error "ValueError: No objects to concatenate" := rfl

/-- Claim C10: invoking the entry point with `--metric aparc` hits the
undefined name `run_aparcstats2table` and aborts with a `NameError`
before any collection, for every session and hemisphere argument; the
defined surface-stats collector `get_aparcstats` is never the dispatch
target of any metric value. -/
theorem mainDispatch_aparc_name_error (session hemisphere : String) :
    mainDispatch session hemisphere "aparc"
      = .error "NameError: name run_aparcstats2table is not defined"
    ∧ "run_aparcstats2table" ∉ definedFunctions
    ∧ ∀ metric : String, dispatchTarget metric ≠ some "get_aparcstats" := by
  refine ⟨rfl, by decide, fun metric => ?_⟩
  unfold dispatchTarget
  split_ifs <;> decide

/-- A pattern that occurs nowhere in the string is never removed. -/
theorem removeAllAux_no_occurrence (pat : List Char) :
    ∀ (n : Nat) (s : List Char), ¬ (pat <:+: s) → removeAllAux pat n s = s
  | 0, _, _ => rfl
  | _ + 1, [], _ => rfl
  | n + 1, c :: cs, h => by
    have hp : ¬ (pat.isPrefixOf (c :: cs) = true) := fun hpre =>
      h (List.isPrefixOf_iff_prefix.mp hpre).isInfix
    rw [removeAllAux, if_neg (fun hc => hp hc.2),
      removeAllAux_no_occurrence pat n cs (fun hi => h (List.infix_cons hi))]

/-- Stripping a leading occurrence of the pattern when the remainder is
pattern-free. -/
theorem removeAllAux_strip (pat : List Char) (hne : pat ≠ []) (t : List Char)
    (hni : ¬ (pat <:+: t)) (n : Nat) (hn : 0 < n) :
    removeAllAux pat n (pat ++ t) = t := by
  obtain ⟨m, rfl⟩ : ∃ m, n = m + 1 := ⟨n - 1, by omega⟩
  obtain ⟨p, ps, rfl⟩ : ∃ p ps, pat = p :: ps := by
    cases pat with
    | nil => exact absurd rfl hne
    | cons p ps => exact ⟨p, ps, rfl⟩
  rw [show (p :: ps) ++ t = p :: (ps ++ t) from rfl, removeAllAux,
    if_pos ⟨hne, List.isPrefixOf_iff_prefix.mpr ⟨t, rfl⟩⟩,
    show (p :: (ps ++ t)) = (p :: ps) ++ t from rfl, List.drop_left,
    removeAllAux_no_occurrence _ _ _ hni]

/-- `Series.str.replace(tag, "")` leaves a string untouched exactly when
the tag occurs nowhere in it, prefix or not. -/
theorem pyReplaceAll_no_occurrence (tag s : String) (h : ¬ (tag.data <:+: s.data)) :
    pyReplaceAll s tag = s := by
  unfold pyReplaceAll
  rw [removeAllAux_no_occurrence tag.data s.data.length s.data h]

/-- `Series.str.replace(tag, "")` strips a leading tag when the
remainder is tag-free. -/
theorem pyReplaceAll_strip_tag (tag base : String) (hne : tag.data ≠ [])
    (h : ¬ (tag.data <:+: base.data)) :
    pyReplaceAll ⟨tag.data ++ base.data⟩ tag = base := by
  unfold pyReplaceAll
  rw [show (⟨tag.data ++ base.data⟩ : String).data = tag.data ++ base.data from rfl,
    removeAllAux_strip tag.data hne base.data h _
      (by
        have := List.length_pos.mpr hne
        simp only [List.length_append]
        omega)]

/-- Claim C4 counterexample: in the left-hemisphere input the structure
name `xlh-y` does not begin with the tag `lh-`, yet the merge rewrites
it to `xy`, because `Series.str.replace` removes every occurrence of
the tag, not only a leading one.  So an untagged name does not pass
through unmodified. -/
theorem hemisphere_merge_counterexample :
    ((get_aparc_all_hemisphere [⟨"sub-1", "xlh-y", "SurfArea", (0 : ℤ)⟩]
        ([] : List (AparcRow ℤ))).map (fun r => r.structName)) = ["xy"]
    ∧ pyStartsWith "xlh-y" "lh-" = false
    ∧ ("xy" : String) ≠ "xlh-y" := by
  refine ⟨?_, by decide, by decide⟩
  decide

/-- Claim C4 amended: the merge output has row count equal to the sum
of the two input row counts and tags every row with the hemisphere of
its source table; each structure name has every occurrence of its
source hemisphere tag substring removed (hence a consistently
prefix-tagged name, tag-free after its tag, loses exactly that tag),
while names in which the tag occurs nowhere pass through unmodified. -/
theorem hemisphere_merge_amended {α : Type} (lh rh : List (AparcRow α)) :
    (get_aparc_all_hemisphere lh rh).length = lh.length + rh.length
    ∧ (get_aparc_all_hemisphere lh rh).map (fun r => r.hemisphere)
        = List.replicate lh.length "lh" ++ List.replicate rh.length "rh"
    ∧ (get_aparc_all_hemisphere lh rh).map (fun r => r.structName)
        = lh.map (fun r => pyReplaceAll r.structName "lh-")
          ++ rh.map (fun r => pyReplaceAll r.structName "rh-")
    ∧ (∀ tag s : String, ¬ (tag.data <:+: s.data) → pyReplaceAll s tag = s)
    ∧ (∀ tag base : String, tag.data ≠ [] → ¬ (tag.data <:+: base.data) →
        pyReplaceAll ⟨tag.data ++ base.data⟩ tag = base) := by
  refine ⟨?_, ?_, ?_, pyReplaceAll_no_occurrence, pyReplaceAll_strip_tag⟩
  · simp [get_aparc_all_hemisphere, tagHemisphere]
  · simp only [get_aparc_all_hemisphere, tagHemisphere, List.map_append, List.map_map,
      Function.comp_def]
    simp [List.map_const']
  · simp only [get_aparc_all_hemisphere, tagHemisphere, List.map_append, List.map_map,
      Function.comp_def]
    rfl

/-- Witness for the amended C4 at concrete one-row tables: tagged names
lose their tag, a tag-free name survives, the hemisphere column and the
row count come out as stated. -/
theorem hemisphere_merge_amended_witness :
    ((get_aparc_all_hemisphere [⟨"sub-1", "lh-bankssts", "SurfArea", (3 : ℤ)⟩]
        [⟨"sub-1", "rh-bankssts", "SurfArea", (4 : ℤ)⟩]).length = 1 + 1)
    ∧ pyReplaceAll "bankssts" "lh-" = "bankssts"
    ∧ pyReplaceAll "lh-bankssts" "lh-" = "bankssts" := by
  refine ⟨?_, ?_, ?_⟩
  · exact (hemisphere_merge_amended
      [⟨"sub-1", "lh-bankssts", "SurfArea", (3 : ℤ)⟩]
      [⟨"sub-1", "rh-bankssts", "SurfArea", (4 : ℤ)⟩]).1
  · exact (hemisphere_merge_amended ([] : List (AparcRow ℤ)) []).2.2.2.1
      "lh-" "bankssts" (by decide)
  · exact (hemisphere_merge_amended ([] : List (AparcRow ℤ)) []).2.2.2.2
      "lh-" "bankssts" (by decide) (by decide)

/-- Peeling the first value column off the row-major cell enumeration:
on tables whose rows all carry one cell per value column, the row-major
cells are a permutation of the first column block followed by the cells
of the remaining columns. -/
theorem wideCells_cons {α : Type} (n : String) (ns : List String) :
    ∀ rows : List (String × List α), (∀ r ∈ rows, r.2.length = ns.length + 1) →
      Perm (wideCells (n :: ns) rows)
        (rows.filterMap (fun r => r.2.head?.map (fun v => (r.1, n, v)))
          ++ wideCells ns (rows.map (fun r => (r.1, r.2.tail))))
  | [], _ => by simp [wideCells]
  | r :: rs, h => by
    obtain ⟨v, vs, hv⟩ : ∃ v vs, r.2 = v :: vs := by
      rcases hr2 : r.2 with _ | ⟨v, vs⟩
      · exact absurd (hr2 ▸ h r (List.mem_cons_self r rs)) (by simp)
      · exact ⟨v, vs, rfl⟩
    have ih := wideCells_cons n ns rs (fun x hx => h x (List.mem_cons_of_mem r hx))
    simp only [wideCells, List.flatMap_cons, List.filterMap_cons, List.map_cons, hv,
      List.zip_cons_cons, List.head?_cons, Option.map_some', List.tail_cons] at *
    refine List.Perm.cons _ ((List.Perm.append_left _ ih).trans ?_)
    rw [← List.append_assoc]
    refine (List.Perm.append_right _ List.perm_append_comm).trans ?_
    rw [List.append_assoc]
    exact List.Perm.refl _

/-- Claim C1: reshaping without standardization is a bijective
relabeling.  On every wide table whose rows each carry one cell per
value column, the long output of the melt is a permutation of the
row-major enumeration of the (subject, column name, cell) triples of
the wide input: no value is created or dropped. -/
theorem melt_is_bijective_relabeling {α : Type} :
    ∀ (valueCols : List String) (rows : List (String × List α)),
      (∀ r ∈ rows, r.2.length = valueCols.length) →
      Perm (melt valueCols rows) (wideCells valueCols rows)
  | [], rows, _ => by simp [melt, wideCells]
  | n :: ns, rows, h => by
    have ih := melt_is_bijective_relabeling ns (rows.map (fun r => (r.1, r.2.tail)))
      (by
        intro r' hr'
        obtain ⟨r, hr, rfl⟩ := List.mem_map.mp hr'
        have := h r hr
        simp only [List.length_tail, this, List.length_cons]
        omega)
    exact (List.Perm.append_left _ ih).trans
      (wideCells_cons n ns rows (by simpa using h)).symm

/-- Witness for C1 at the example from the specification: the wide
table with columns `study_id, A, B` and rows `(sub-1, 2, 4)` and
`(sub-2, 4, 8)` melts into exactly the four listed long rows, up to
order. -/
theorem melt_is_bijective_relabeling_witness :
    Perm (melt ["A", "B"] [("sub-1", [(2 : ℤ), 4]), ("sub-2", [4, 8])])
      [("sub-1", "A", (2 : ℤ)), ("sub-1", "B", 4),
       ("sub-2", "A", 4), ("sub-2", "B", 8)] := by
  have h := melt_is_bijective_relabeling ["A", "B"]
    [("sub-1", [(2 : ℤ), 4]), ("sub-2", [4, 8])] (by decide)
  have hcells : wideCells ["A", "B"] [("sub-1", [(2 : ℤ), 4]), ("sub-2", [4, 8])]
      = [("sub-1", "A", (2 : ℤ)), ("sub-1", "B", 4),
         ("sub-2", "A", 4), ("sub-2", "B", 8)] := by decide
  exact hcells ▸ h

/-- `filterMap` keeps every element whose image is defined. -/
theorem length_filterMap_of_isSome {α β : Type} (f : α → Option β) :
    ∀ l : List α, (∀ x ∈ l, (f x).isSome) → (l.filterMap f).length = l.length
  | [], _ => rfl
  | x :: xs, h => by
    obtain ⟨y, hy⟩ := Option.isSome_iff_exists.mp (h x (List.mem_cons_self x xs))
    rw [List.filterMap_cons, hy, List.length_cons,
      length_filterMap_of_isSome f xs (fun a ha => h a (List.mem_cons_of_mem x ha))]
    rfl

/-- A column that every row reaches is as long as the table. -/
theorem columnOf_length {α : Type} (rows : List (List α)) (j : Nat)
    (h : ∀ r ∈ rows, j < r.length) : (columnOf rows j).length = rows.length := by
  refine length_filterMap_of_isSome _ rows (fun r hr => ?_)
  rw [List.get?_eq_get (h r hr)]
  rfl

/-- `filterMap` only looks at its function on the members. -/
theorem filterMap_congr_mem {α β : Type} (f g : α → Option β) :
    ∀ l : List α, (∀ x ∈ l, f x = g x) → l.filterMap f = l.filterMap g
  | [], _ => rfl
  | x :: xs, h => by
    rw [List.filterMap_cons, List.filterMap_cons, h x (List.mem_cons_self x xs),
      filterMap_congr_mem f g xs (fun a ha => h a (List.mem_cons_of_mem x ha))]

/-- The standardization step is per column: column `j` of the
standardized table is `scipy.stats.zscore` of column `j` of the input
table, whenever every row reaches column `j`. -/
theorem columnOf_zscoreRows (vals : List (List ℝ)) (j : Nat)
    (h : ∀ v ∈ vals, j < v.length) :
    columnOf (zscoreRows vals) j = zscoreList (columnOf vals j) := by
  unfold zscoreRows zscoreList columnOf
  rw [List.filterMap_map, List.map_filterMap]
  refine filterMap_congr_mem _ _ vals (fun r hr => ?_)
  have hj := h r hr
  obtain ⟨x, hx⟩ : ∃ x, r.get? j = some x :=
    ⟨_, List.get?_eq_get hj⟩
  simp only [List.get?_eq_getElem?] at hx ⊢
  simp only [Function.comp_apply]
  rw [List.getElem?_map, List.getElem?_range hj, Option.map_some', hx]
  rfl

/-- Claim C5: with the standardization flag enabled, each value column
of the wide table is replaced, before unpivoting, by the scipy z-score
of that column — entrywise `(x - mean) / std` with the population-style
moments of the whole column — and the column the moments are computed
over contains one entry per row present in the table.  The final
conjunct places the standardized table inside the pipeline: the long
output is the melt of exactly this table. -/
theorem zscore_standardizes_columns (rows : List (String × List ℝ)) (j : Nat)
    (hrect : ∀ r ∈ rows, r.2.length = brain_cols.length)
    (hj : j < brain_cols.length) :
    columnOf (zscoreRows (rows.map (fun r => r.2))) j
        = zscoreList (columnOf (rows.map (fun r => r.2)) j)
    ∧ zscoreList (columnOf (rows.map (fun r => r.2)) j)
        = (columnOf (rows.map (fun r => r.2)) j).map (fun x =>
            fdiv (x - mean (columnOf (rows.map (fun r => r.2)) j))
              (pstd (columnOf (rows.map (fun r => r.2)) j)))
    ∧ (columnOf (rows.map (fun r => r.2)) j).length = rows.length
    ∧ get_brainvol_df rows true
        = melt brain_cols ((rows.map (fun r => pySplitFirst r.1)).zip
            (zscoreRows (rows.map (fun r => r.2)))) := by
  have hreach : ∀ v ∈ rows.map (fun r => r.2), j < v.length := by
    intro v hv
    obtain ⟨r, hr, rfl⟩ := List.mem_map.mp hv
    rw [hrect r hr]
    exact hj
  refine ⟨columnOf_zscoreRows _ j hreach, rfl, ?_, rfl⟩
  rw [columnOf_length _ j hreach, List.length_map]

/-- Witness for C5 on a two-row table reaching its first column. -/
theorem zscore_standardizes_columns_witness :
    (∀ r ∈ [("sub-1_ses-a", [(1 : ℝ), 0, 0, 0, 0]), ("sub-2_ses-a", [3, 0, 0, 0, 0])],
        r.2.length = brain_cols.length)
    ∧ columnOf (zscoreRows ([("sub-1_ses-a", [(1 : ℝ), 0, 0, 0, 0]),
          ("sub-2_ses-a", [3, 0, 0, 0, 0])].map (fun r => r.2))) 0
        = zscoreList (columnOf ([("sub-1_ses-a", [(1 : ℝ), 0, 0, 0, 0]),
          ("sub-2_ses-a", [3, 0, 0, 0, 0])].map (fun r => r.2)) 0) := by
  have h : ∀ r ∈ [("sub-1_ses-a", [(1 : ℝ), 0, 0, 0, 0]), ("sub-2_ses-a", [3, 0, 0, 0, 0])],
      r.2.length = brain_cols.length := by
    intro r hr
    rcases List.mem_cons.mp hr with rfl | hr'
    · rfl
    · rcases List.mem_cons.mp hr' with rfl | hr''
      · rfl
      · exact absurd hr'' (List.not_mem_nil r)
  exact ⟨h, (zscore_standardizes_columns _ 0 h (by norm_num [brain_cols])).1⟩

/-- A list of squared deviations sums to zero only when every entry
equals the center. -/
theorem eq_of_sum_sq_eq_zero (c : ℝ) :
    ∀ l : List ℝ, (l.map (fun x => (x - c) ^ 2)).sum = 0 → ∀ x ∈ l, x = c
  | [], _, x, hx => absurd hx (List.not_mem_nil x)
  | a :: t, h, x, hx => by
    rw [List.map_cons, List.sum_cons] at h
    have h2 : 0 ≤ ((t.map (fun x => (x - c) ^ 2)).sum) :=
      List.sum_nonneg (fun y hy => by
        obtain ⟨z, _, rfl⟩ := List.mem_map.mp hy
        exact sq_nonneg _)
    have ha := (add_eq_zero_iff_of_nonneg (sq_nonneg _) h2).mp h
    rcases List.mem_cons.mp hx with rfl | hx'
    · have := pow_eq_zero_iff (n := 2) (by norm_num) |>.mp ha.1
      linarith [sub_eq_zero.mp this]
    · exact eq_of_sum_sq_eq_zero c t ha.2 x hx'

/-- Zero population variance forces every entry to equal the mean, so
in the zero-variance case every z-score numerator is exactly zero and
the division is the NaN-producing `0.0 / 0.0`. -/
theorem all_eq_mean_of_pvar_zero (l : List ℝ) (h : pvar l = 0) :
    ∀ x ∈ l, x = mean l := by
  intro x hx
  have hl : l ≠ [] := by
    rintro rfl
    exact absurd hx (List.not_mem_nil x)
  have hn : ((l.length : ℝ)) ≠ 0 :=
    Nat.cast_ne_zero.mpr (List.length_pos.mpr hl).ne'
  unfold pvar at h
  rcases div_eq_zero_iff.mp h with h' | h'
  · exact eq_of_sum_sq_eq_zero (mean l) l h' x hx
  · exact absurd h' hn

/-- Each table row with at least one cell satisfying `p` contributes at
least one to the count over the row-major cells. -/
theorem le_countP_wideCells {α : Type} (p : String × String × α → Bool)
    (valueCols : List String) :
    ∀ rows : List (String × List α),
      (∀ r ∈ rows, ∃ c ∈ (valueCols.zip r.2).map (fun nv => (r.1, nv.1, nv.2)), p c) →
      rows.length ≤ (wideCells valueCols rows).countP p
  | [], _ => Nat.le_refl 0
  | r :: rs, h => by
    have hpos : 0 < ((valueCols.zip r.2).map (fun nv => (r.1, nv.1, nv.2))).countP p :=
      List.countP_pos_iff.mpr (h r (List.mem_cons_self r rs))
    have ih := le_countP_wideCells p valueCols rs
      (fun x hx => h x (List.mem_cons_of_mem r hx))
    have hsplit : wideCells valueCols (r :: rs)
        = ((valueCols.zip r.2).map (fun nv => (r.1, nv.1, nv.2)))
          ++ wideCells valueCols rs := rfl
    rw [hsplit, List.countP_append, List.length_cons]
    omega

/-- Claim C6: on a value column with zero variance the standardization
does not fail and gets no special handling: every entry of the column
equals its mean (so each division is exactly `0 / 0`), the divisor —
the zero standard deviation — turns the whole standardized column into
the non-finite value, and at least one long-output row per input row
carries that non-finite value. -/
theorem zero_variance_yields_nan (rows : List (String × List ℝ)) (j : Nat)
    (hrect : ∀ r ∈ rows, r.2.length = brain_cols.length)
    (hj : j < brain_cols.length)
    (hvar : pvar (columnOf (rows.map (fun r => r.2)) j) = 0) :
    (∀ x ∈ columnOf (rows.map (fun r => r.2)) j,
        x = mean (columnOf (rows.map (fun r => r.2)) j))
    ∧ columnOf (zscoreRows (rows.map (fun r => r.2))) j
        = List.replicate rows.length none
    ∧ rows.length ≤ (get_brainvol_df rows true).countP (fun t => t.2.2.isNone) := by
  have hreach : ∀ v ∈ rows.map (fun r => r.2), j < v.length := by
    intro v hv
    obtain ⟨r, hr, rfl⟩ := List.mem_map.mp hv
    rw [hrect r hr]
    exact hj
  have hstd : pstd (columnOf (rows.map (fun r => r.2)) j) = 0 := by
    unfold pstd
    rw [hvar, Real.sqrt_zero]
  have hfd : ∀ x : ℝ,
      fdiv (x - mean (columnOf (rows.map (fun r => r.2)) j))
        (pstd (columnOf (rows.map (fun r => r.2)) j)) = none := by
    intro x
    rw [hstd]
    unfold fdiv
    rw [if_pos rfl]
  have hcol : columnOf (zscoreRows (rows.map (fun r => r.2))) j
      = List.replicate rows.length none := by
    rw [columnOf_zscoreRows _ j hreach]
    unfold zscoreList
    rw [List.map_congr_left (fun x _ => hfd x), List.map_const',
      columnOf_length _ j hreach, List.length_map]
  refine ⟨all_eq_mean_of_pvar_zero _ hvar, hcol, ?_⟩
  have hrectTable : ∀ t ∈ (rows.map (fun r => pySplitFirst r.1)).zip
      (zscoreRows (rows.map (fun r => r.2))), t.2.length = brain_cols.length := by
    rintro ⟨id, cells⟩ ht
    have hcells : cells ∈ zscoreRows (rows.map (fun r => r.2)) :=
      (List.of_mem_zip ht).2
    obtain ⟨r0, hr0, rfl⟩ := List.mem_map.mp hcells
    simp only [List.length_map, List.length_range]
    obtain ⟨r1, hr1, rfl⟩ := List.mem_map.mp hr0
    exact hrect r1 hr1
  have hwit : ∀ t ∈ (rows.map (fun r => pySplitFirst r.1)).zip
      (zscoreRows (rows.map (fun r => r.2))),
      ∃ c ∈ (brain_cols.zip t.2).map (fun nv => (t.1, nv.1, nv.2)),
        (fun s : String × String × Option ℝ => s.2.2.isNone) c := by
    rintro ⟨id, cells⟩ ht
    have hcells : cells ∈ zscoreRows (rows.map (fun r => r.2)) :=
      (List.of_mem_zip ht).2
    obtain ⟨r0, hr0, rfl⟩ := List.mem_map.mp hcells
    have hj0 : j < r0.length := hreach r0 hr0
    have hcellj : ((List.range r0.length).map (fun i =>
        (r0.get? i).bind (fun x =>
          fdiv (x - mean (columnOf (rows.map (fun r => r.2)) i))
            (pstd (columnOf (rows.map (fun r => r.2)) i)))))[j]? = some none := by
      rw [List.getElem?_map, List.getElem?_range hj0, Option.map_some',
        List.get?_eq_getElem?, List.getElem?_eq_getElem hj0]
      rw [Option.some_bind, hfd]
    have hname : brain_cols[j]? = some (brain_cols.get ⟨j, hj⟩) := by
      rw [← List.get?_eq_getElem?]
      exact List.get?_eq_get hj
    have hzip : (brain_cols.zip ((List.range r0.length).map (fun i =>
        (r0.get? i).bind (fun x =>
          fdiv (x - mean (columnOf (rows.map (fun r => r.2)) i))
            (pstd (columnOf (rows.map (fun r => r.2)) i))))))[j]?
        = some (brain_cols.get ⟨j, hj⟩, (none : Option ℝ)) :=
      List.getElem?_zip_eq_some.mpr ⟨hname, hcellj⟩
    have hz : ((brain_cols.zip ((List.range r0.length).map (fun i =>
        (r0.get? i).bind (fun x =>
          fdiv (x - mean (columnOf (rows.map (fun r => r.2)) i))
            (pstd (columnOf (rows.map (fun r => r.2)) i)))))).map
          (fun nv => (id, nv.1, nv.2)))[j]?
        = some (id, brain_cols.get ⟨j, hj⟩, none) := by
      rw [List.getElem?_map, hzip, Option.map_some']
    exact ⟨(id, brain_cols.get ⟨j, hj⟩, none), List.getElem?_mem hz, rfl⟩
  have hperm := melt_is_bijective_relabeling brain_cols
    ((rows.map (fun r => pySplitFirst r.1)).zip (zscoreRows (rows.map (fun r => r.2))))
    hrectTable
  have hcount := hperm.countP_eq (fun s : String × String × Option ℝ => s.2.2.isNone)
  have hmain : get_brainvol_df rows true
      = melt brain_cols ((rows.map (fun r => pySplitFirst r.1)).zip
          (zscoreRows (rows.map (fun r => r.2)))) := rfl
  rw [hmain, hcount]
  refine le_trans ?_ (le_countP_wideCells _ brain_cols _ hwit)
  rw [List.length_zip]
  simp only [List.length_map, zscoreRows, Nat.min_self]
  exact Nat.le_refl _

/-- Witness for C6: a two-row table whose first value column is the
constant `5`: the variance is zero and the standardized first column is
entirely the non-finite value. -/
theorem zero_variance_yields_nan_witness :
    pvar (columnOf ([("sub-1_ses-a", [(5 : ℝ), 1, 2, 3, 4]),
        ("sub-2_ses-a", [5, 9, 8, 7, 6])].map (fun r => r.2)) 0) = 0
    ∧ columnOf (zscoreRows ([("sub-1_ses-a", [(5 : ℝ), 1, 2, 3, 4]),
        ("sub-2_ses-a", [5, 9, 8, 7, 6])].map (fun r => r.2))) 0
      = List.replicate 2 none := by
  have hc : columnOf ([("sub-1_ses-a", [(5 : ℝ), 1, 2, 3, 4]),
      ("sub-2_ses-a", [5, 9, 8, 7, 6])].map (fun r => r.2)) 0 = [(5 : ℝ), 5] := by
    simp [columnOf]
  have hvar : pvar (columnOf ([("sub-1_ses-a", [(5 : ℝ), 1, 2, 3, 4]),
      ("sub-2_ses-a", [5, 9, 8, 7, 6])].map (fun r => r.2)) 0) = 0 := by
    rw [hc]
    norm_num [pvar, mean]
  have hrect : ∀ r ∈ [("sub-1_ses-a", [(5 : ℝ), 1, 2, 3, 4]),
      ("sub-2_ses-a", [5, 9, 8, 7, 6])], r.2.length = brain_cols.length := by
    intro r hr
    rcases List.mem_cons.mp hr with rfl | hr'
    · rfl
    · rcases List.mem_cons.mp hr' with rfl | hr''
      · rfl
      · exact absurd hr'' (List.not_mem_nil r)
  exact ⟨hvar, (zero_variance_yields_nan _ 0 hrect (by norm_num [brain_cols]) hvar).2.1⟩

/-- Claim C8: the reshaper is deterministic and pure.  The embedding of
`get_brainvol_df` is a function of the parsed file contents and the
flag alone — the source reads no global mutable state and uses no
randomness — so equal inputs and equal flags give equal long tables. -/
theorem get_brainvol_df_deterministic (rows₁ rows₂ : List (String × List ℝ))
    (z₁ z₂ : Bool) (h₁ : rows₁ = rows₂) (h₂ : z₁ = z₂) :
    get_brainvol_df rows₁ z₁ = get_brainvol_df rows₂ z₂ := by
  rw [h₁, h₂]

/-- Witness for C8 at a concrete table and flag. -/
theorem get_brainvol_df_deterministic_witness :
    get_brainvol_df [("sub-1_ses-a", [(1 : ℝ), 2, 3, 4, 5])] false
      = get_brainvol_df [("sub-1_ses-a", [(1 : ℝ), 2, 3, 4, 5])] false :=
  get_brainvol_df_deterministic _ _ false false rfl rfl

/-- A column name that appears in the table can be fetched. -/
theorem getCol_isSome_of_mem {α : Type} :
    ∀ t : List (String × List α), ∀ n : String, n ∈ t.map (fun c => c.1) →
      ∃ xs, getCol t n = some xs
  | [], n, h => absurd h (List.not_mem_nil n)
  | c :: cs, n, h => by
    rcases hb : (c.1 == n) with _ | _
    · have hn : n ∈ cs.map (fun c => c.1) := by
        rcases List.mem_cons.mp h with heq | h'
        · simp only [heq] at hb
          simp at hb
        · exact h'
      obtain ⟨xs, hxs⟩ := getCol_isSome_of_mem cs n hn
      refine ⟨xs, ?_⟩
      unfold getCol at hxs ⊢
      rw [List.find?_cons_of_neg (p := fun c : String × List α => c.1 == n) _ (by simp [hb])]
      exact hxs
    · refine ⟨c.2, ?_⟩
      unfold getCol
      rw [List.find?_cons_of_pos (p := fun c : String × List α => c.1 == n) _ hb]
      rfl

/-- Writing a column does not change the column names. -/
theorem setCol_names {α : Type} (t : List (String × List α)) (n : String)
    (xs : List α) :
    (setCol t n xs).map (fun c => c.1) = t.map (fun c => c.1) := by
  unfold setCol
  rw [List.map_map]
  refine List.map_congr_left (fun c _ => ?_)
  by_cases hb : c.1 = n <;> simp [hb]

/-- Reading back the column just written returns the written cells. -/
theorem getCol_setCol_self {α : Type} :
    ∀ t : List (String × List α), ∀ n : String, ∀ xs : List α,
      (∃ ys, getCol t n = some ys) →
      getCol (setCol t n xs) n = some xs
  | [], n, xs, h => by
    obtain ⟨ys, hys⟩ := h
    exact absurd hys (by simp [getCol])
  | c :: cs, n, xs, h => by
    by_cases hb : c.1 = n
    · simp only [setCol, List.map_cons, if_pos hb]
      unfold getCol
      rw [List.find?_cons_of_pos (p := fun c : String × List α => c.1 == n) _ (by simp [hb])]
      rfl
    · have h' : ∃ ys, getCol cs n = some ys := by
        obtain ⟨ys, hys⟩ := h
        unfold getCol at hys
        rw [List.find?_cons_of_neg (p := fun c : String × List α => c.1 == n) _ (by simp [hb])] at hys
        exact ⟨ys, hys⟩
      have ih := getCol_setCol_self cs n xs h'
      simp only [setCol, List.map_cons, if_neg hb]
      unfold getCol
      rw [List.find?_cons_of_neg (p := fun c : String × List α => c.1 == n) _ (by simp [hb])]
      unfold getCol setCol at ih
      exact ih

/-- Claim C9: loading the demographics table yields a table whose
columns are exactly the subject identifier followed by the two scan-age
columns under their canonical names, and every subject-identifier cell
is a string prefixed by `sub-`. -/
theorem gestational_age_df_canonical (t : List (String × List Cell))
    (hsidmem : "study_id" ∈ t.map (fun c => c.1))
    (h1mo : "1mo_scan_age_wks" ∈ t.map (fun c => c.1))
    (h6mo : "6mo_scan_age_wks" ∈ t.map (fun c => c.1)) :
    ∃ out, get_gestational_age_df t = some out
      ∧ out.map (fun c => c.1)
          = ["study_id", "newborn_scan_age_weeks", "sixmonth_scan_age_weeks"]
      ∧ ∀ col ∈ out, col.1 = "study_id" →
          ∀ v ∈ col.2, ∃ s, v = Cell.str ("sub-" ++ s) := by
  obtain ⟨sids, hsids⟩ := getCol_isSome_of_mem t _ hsidmem
  obtain ⟨a1, ha1⟩ := getCol_isSome_of_mem
    (setCol t "study_id" (sids.map (fun c => Cell.str ("sub-" ++ pyStr c)))) _
    (by rw [setCol_names]; exact h1mo)
  obtain ⟨a6, ha6⟩ := getCol_isSome_of_mem
    (setCol t "study_id" (sids.map (fun c => Cell.str ("sub-" ++ pyStr c)))) _
    (by rw [setCol_names]; exact h6mo)
  have hsid1 := getCol_setCol_self t "study_id"
    (sids.map (fun c => Cell.str ("sub-" ++ pyStr c))) ⟨sids, hsids⟩
  refine ⟨[("study_id", sids.map (fun c => Cell.str ("sub-" ++ pyStr c))),
    ("newborn_scan_age_weeks", a1), ("sixmonth_scan_age_weeks", a6)],
    ?_, rfl, ?_⟩
  · simp only [get_gestational_age_df, Option.bind_eq_bind]
    rw [hsids]
    simp only [Option.some_bind]
    simp [selectCols, hsid1, ha1, ha6, renameCols]
  · intro col hcol hname v hv
    rcases List.mem_cons.mp hcol with rfl | hcol'
    · obtain ⟨c, _, rfl⟩ := List.mem_map.mp hv
      exact ⟨pyStr c, rfl⟩
    rcases List.mem_cons.mp hcol' with rfl | hcol''
    · simp at hname
    rcases List.mem_cons.mp hcol'' with rfl | hcol'''
    · simp at hname
    · exact absurd hcol''' (List.not_mem_nil col)

/-- Witness for C9 on a four-column CSV carrying an extra column. -/
theorem gestational_age_df_canonical_witness :
    ∃ out, get_gestational_age_df
        [("extra", [Cell.num 7]), ("study_id", [Cell.str "1176"]),
         ("1mo_scan_age_wks", [Cell.num 4]), ("6mo_scan_age_wks", [Cell.num 28])]
        = some out
      ∧ out.map (fun c => c.1)
          = ["study_id", "newborn_scan_age_weeks", "sixmonth_scan_age_weeks"]
      ∧ ∀ col ∈ out, col.1 = "study_id" →
          ∀ v ∈ col.2, ∃ s, v = Cell.str ("sub-" ++ s) :=
  gestational_age_df_canonical _ (by decide) (by decide) (by decide)

end SEALab
